import Mathlib

/-!
Verification of the KEV layered environment-variable store
(`src/kev.ts`, class `KevOps`), shallowly embedded in Lean.

Strings are modelled as `List Char` (`Str`).  JavaScript string
operations used by the source are given explicit models:
`String.prototype.split(sep, limit)` with a one-character separator
(`splitCh` / take), `trim` (`trimJS`), `startsWith` / `endsWith`
(list prefix / suffix), `includes` (substring search).  The process
environment, the filesystem and the external `path.absolute`
collaborator are packaged in an `Env` record, and `panic` is modelled
as `Except.error`.
-/

namespace Kev

abbrev Str := List Char

/-- Coerce a Lean string literal to the model's character-list form. -/
def str (s : String) : Str := s.data

/-- The character class removed by JavaScript `String.prototype.trim`:
ECMAScript WhiteSpace and LineTerminator code points. -/
def isJsWhite (c : Char) : Bool :=
  let v := c.val
  v = 32 || v = 9 || v = 10 || v = 13 || v = 11 || v = 12 ||
  v = 0xA0 || v = 0xFEFF || v = 0x1680 ||
  (0x2000 ≤ v && v ≤ 0x200A) ||
  v = 0x2028 || v = 0x2029 || v = 0x202F || v = 0x205F || v = 0x3000

/-- Model of JavaScript `s.trim()`. -/
def trimJS (s : Str) : Str :=
  ((s.dropWhile isJsWhite).reverse.dropWhile isJsWhite).reverse

/-- Model of JavaScript `s.split(c)` for a one-character separator:
always returns at least one (possibly empty) segment. -/
def splitCh (c : Char) : Str → List Str
  | [] => [[]]
  | x :: xs =>
    match splitCh c xs with
    | [] => [[]]
    | h :: t => if x = c then [] :: h :: t else (x :: h) :: t

/-- Model of JavaScript `s.startsWith(p)`. -/
def hasPrefixS (p s : Str) : Bool := List.isPrefixOf p s

/-- Model of JavaScript `s.endsWith(p)`. -/
def hasSuffixS (p s : Str) : Bool := List.isSuffixOf p s

/-- Model of JavaScript `s.includes(sub)` (substring containment). -/
def includesS (sub : Str) : Str → Bool
  | [] => hasPrefixS sub []
  | c :: rest => hasPrefixS sub (c :: rest) || includesS sub rest

/-- Model of JavaScript `s.includes(c)` for a single character. -/
def includesC (c : Char) (s : Str) : Bool := s.any (· = c)

example : splitCh ':' (str "a:b:c") = [str "a", str "b", str "c"] := by decide
example : splitCh ':' (str "") = [str ""] := by decide
example : splitCh ':' (str ":a:") = [[], str "a", []] := by decide
example : trimJS (str "  x y\t") = str "x y" := by decide
example : includesS (str "::") (str "a::b") = true := by decide
example : includesS (str "::") (str "a:b:c") = false := by decide

/-- Decidable equality for `Except`, used to evaluate the model on
concrete inputs. -/
instance {ε α : Type} [DecidableEq ε] [DecidableEq α] :
    DecidableEq (Except ε α)
  | .error e, .error f =>
    if h : e = f then .isTrue (by rw [h])
    else .isFalse (by intro hc; cases hc; exact h rfl)
  | .error _, .ok _ => .isFalse (by intro hc; cases hc)
  | .ok _, .error _ => .isFalse (by intro hc; cases hc)
  | .ok a, .ok b =>
    if h : a = b then .isTrue (by rw [h])
    else .isFalse (by intro hc; cases hc; exact h rfl)

/-! ### Data model (`MemEntry`, `KevOps` state, external world) -/

/-- `interface MemEntry { value: string; source: string }`. -/
structure MemEntry where
  value : Str
  source : Str
  deriving DecidableEq, Repr

/-- The mutable fields of `class KevOps` that the verified operations
touch: the in-memory cache (a JavaScript `Map`, modelled as an
association list in insertion order) and the ordered source list. -/
structure KevState where
  memory : List (Str × MemEntry)
  sources : List Str
  deriving DecidableEq, Repr

/-- The external world consumed by `KevOps`: the process environment
(`runtime.env` returns a string or `undefined`), the filesystem
(`file.exists`/`file.readText`, a file is `none` when absent), the
enumeration order of `runtime.allEnv()`, and the external
`path.absolute` collaborator (Node's `resolve`). -/
structure Env where
  osEnv : Str → Option Str
  osAll : List (Str × Str)
  files : Str → Option Str
  absolute : Str → Str

/-- JavaScript `Map.get`: first (unique) binding of the key. -/
def memGet (m : List (Str × MemEntry)) (k : Str) : Option MemEntry :=
  match m with
  | [] => none
  | (k', e) :: rest => if k' = k then some e else memGet rest k

/-- JavaScript `Map.set`: overwrite in place if present, else append. -/
def memSet (m : List (Str × MemEntry)) (k : Str) (e : MemEntry) :
    List (Str × MemEntry) :=
  match m with
  | [] => [(k, e)]
  | (k', e') :: rest =>
    if k' = k then (k', e) :: rest else (k', e') :: memSet rest k e

/-! ### Key parser (`KevOps.parseKey`) -/

/-- `KevOps.parseKey`.  `panic` is modelled as `Except.error`;
`key.split(':', 2)` is `(splitCh ':' key).take 2` (the JavaScript
`limit` argument truncates, it does not keep the remainder). -/
def parseKey (key : Str) : Except Str (Str × Str) :=
  if hasPrefixS (str ":") key then
    .error (str "invalid key format - starts with colon")
  else if includesS (str "::") key then
    .error (str "invalid key format - double colon")
  else
    match (splitCh ':' key).take 2 with
    | [p0, p1] =>
      if p0 = [] || p1 = [] then
        .error (str "invalid key format - empty namespace or key")
      else .ok (p0, p1)
    | _ => .ok ([], key)

example : parseKey (str "a:b") = .ok (str "a", str "b") := by decide
example : parseKey (str "plain") = .ok ([], str "plain") := by decide
example : parseKey (str "a:b:c") = .ok (str "a", str "b") := by decide
example : (parseKey (str ":x")).isOk = false := by decide
example : (parseKey (str "a::b")).isOk = false := by decide
example : (parseKey (str "a:")).isOk = false := by decide

/-! ### File backend, read side (`KevOps.getFromFile`) -/

/-- The quote-stripping step of `getFromFile` / `parseEnvFile`:
remove one pair of surrounding matching single or double quotes. -/
def stripQuotes (v : Str) : Str :=
  if (hasPrefixS (str "\"") v && hasSuffixS (str "\"") v) ||
     (hasPrefixS (str "'") v && hasSuffixS (str "'") v) then
    (v.drop 1).dropLast
  else v

/-- The line scan inside `KevOps.getFromFile`: skip blank and `#`
lines, split each remaining line on `'='` with limit 2, and return
the trimmed, quote-stripped value of the first line whose trimmed
key equals `key`. -/
def getFromFileLines (key : Str) : List Str → Str
  | [] => []
  | line :: rest =>
    let trimmed := trimJS line
    if trimmed = [] || hasPrefixS (str "#") trimmed then
      getFromFileLines key rest
    else
      match (splitCh '=' trimmed).take 2 with
      | [k, v] =>
        if trimJS k = key then stripQuotes (trimJS v)
        else getFromFileLines key rest
      | _ => getFromFileLines key rest

/-- `KevOps.getFromFile`: absent file reads as the empty string,
otherwise the content is split on newlines and scanned. -/
def getFromFile (env : Env) (filePath key : Str) : Str :=
  match env.files filePath with
  | none => []
  | some content => getFromFileLines key (splitCh '\n' content)

example :
    getFromFile
      { osEnv := fun _ => none, osAll := [], absolute := fun s => s,
        files := fun p => if p = str ".env" then
          some (str "# c\nA=1\nB=\"x y\"\nA=2") else none }
      (str ".env") (str "B") = str "x y" := by decide

/-! ### Namespace dispatch, read side -/

/-- The backend-selection test used by `getFromNamespace`,
`setToNamespace`, `hasInNamespace` and `getNamespaceData`:
`namespace.startsWith('.') || namespace.includes('/')`. -/
def isPathLike (ns : Str) : Bool :=
  hasPrefixS (str ".") ns || includesC '/' ns

/-- `runtime.env(key) || ''`: an unset or empty variable reads as
the empty string. -/
def osRead (env : Env) (key : Str) : Str := (env.osEnv key).getD []

/-- `KevOps.getFromNamespace`. -/
def getFromNamespace (env : Env) (ns key : Str) : Str :=
  if ns = str "os" then osRead env key
  else if isPathLike ns then getFromFile env ns key
  else []

/-- `KevOps.hasInNamespace` (`runtime.hasEnv` is an existence check,
distinct from non-emptiness). -/
def hasInNamespace (env : Env) (ns key : Str) : Bool :=
  if ns = str "os" then (env.osEnv key).isSome
  else if isPathLike ns then getFromFile env ns key ≠ []
  else false

/-! ### Resolver (`KevOps.get`, `sourceOf`, `has`) -/

/-- The source-list walk inside `KevOps.get`: the first source whose
backend returns a non-empty value wins, together with that value. -/
def searchSources (env : Env) (key : Str) : List Str → Option (Str × Str)
  | [] => none
  | s :: rest =>
    let v := getFromNamespace env s key
    if v ≠ [] then some (s, v) else searchSources env key rest

/-- `KevOps.get`.  Returns the value and the updated state (the cache
is the only mutated field).  The optional `defaultValue` parameter is
an `Option`; `panic` inside `parseKey` propagates as `Except.error`. -/
def getOp (st : KevState) (env : Env) (key : Str) (dflt : Option Str) :
    Except Str (Str × KevState) :=
  match parseKey key with
  | .error e => .error e
  | .ok (ns, realKey) =>
    if ns ≠ [] then
      -- namespaced: direct access, no caching
      let v := getFromNamespace env ns realKey
      if v ≠ [] then .ok (v, st)
      else
        match dflt with
        | some d => .ok (d, st)
        | none => .ok ([], st)
    else
      match memGet st.memory realKey with
      | some entry => .ok (entry.value, st)
      | none =>
        match searchSources env realKey st.sources with
        | some (source, v) =>
          let absoluteSource :=
            if source ≠ str "os" ∧ source ≠ str "default" ∧ source ≠ str "set"
            then env.absolute source else source
          .ok (v, { st with
                    memory := memSet st.memory realKey
                      { value := v, source := absoluteSource } })
        | none =>
          match dflt with
          | some d =>
            .ok (d, { st with
                      memory := memSet st.memory realKey
                        { value := d, source := str "default" } })
          | none => .ok ([], st)

/-- `KevOps.sourceOf`: cache-only provenance lookup on the raw key. -/
def sourceOf (st : KevState) (key : Str) : Str :=
  match memGet st.memory key with
  | some entry => entry.source
  | none => []

/-- `KevOps.has`: memory, then every source; never mutates. -/
def hasOp (st : KevState) (env : Env) (key : Str) : Except Str Bool :=
  match parseKey key with
  | .error e => .error e
  | .ok (ns, realKey) =>
    if ns ≠ [] then .ok (hasInNamespace env ns realKey)
    else if (memGet st.memory realKey).isSome then .ok true
    else .ok (st.sources.any fun s => hasInNamespace env s realKey)

/-! ### Pattern matcher (`KevOps.matchPattern`) -/

/-- `KevOps.matchPattern`: the glob-lite matcher.  Note the order of
the tests: `pattern.endsWith('*')` is checked before
`pattern.startsWith('*')`. -/
def matchPattern (key pattern : Str) : Bool :=
  if pattern = str "*" then true
  else if hasSuffixS (str "*") pattern then
    let pre := pattern.dropLast
    hasPrefixS pre key
  else if hasPrefixS (str "*") pattern then
    let suf := pattern.drop 1
    hasSuffixS suf key
  else if includesC '*' pattern then
    match splitCh '*' pattern with
    | [p0, p1] => hasPrefixS p0 key && hasSuffixS p1 key
    | _ => key = pattern
  else key = pattern

example : matchPattern (str "API_KEY") (str "API_*") = true := by decide
example : matchPattern (str "MY_KEY") (str "*_KEY") = true := by decide
example : matchPattern (str "A_MID_B") (str "A*B") = true := by decide
example : matchPattern (str "FOO") (str "BAR") = false := by decide
example : matchPattern (str "anything") (str "*") = true := by decide

/-! ### File backend, write side (`KevOps.setToFile`) -/

/-- The quoting test in `setToFile` and `export`: quote when the value
contains a space, a tab or a newline. -/
def needsQuote (v : Str) : Bool :=
  includesC ' ' v || includesC '\t' v || includesC '\n' v

/-- `value.includes(' ') ... ? `"${value}"` : value`. -/
def quoteVal (v : Str) : Str :=
  if needsQuote v then '"' :: (v ++ ['"']) else v

/-- The `${key}=${quotedValue}` line written by `setToFile`. -/
def newDataLine (key value : Str) : Str := key ++ '=' :: quoteVal value

/-- One iteration of the rewrite loop in `setToFile`: returns the
output line and whether this line's key matched the target. -/
def procLine (key value line : Str) : Str × Bool :=
  let trimmed := trimJS line
  if trimmed = [] || hasPrefixS (str "#") trimmed then (line, false)
  else
    let fileKey := trimJS (((splitCh '=' trimmed).take 2).headD [])
    if fileKey = key then (newDataLine key value, true) else (line, false)

/-- The rewrite loop of `setToFile` over the existing lines: output
lines plus the accumulated `found` flag. -/
def setLines (key value : Str) : List Str → List Str × Bool
  | [] => ([], false)
  | line :: rest =>
    let (out, matched) := procLine key value line
    let (outs, found) := setLines key value rest
    (out :: outs, matched || found)

/-- Model of JavaScript `lines.join('\n')`. -/
def joinNl (ls : List Str) : Str := (ls.intersperse (str "\n")).flatten

/-- `KevOps.setToFile`, as a function from the previous file content
(`none` when the file does not exist) to the content written back. -/
def setToFileContent (key value : Str) (existing : Option Str) : Str :=
  let (lines, found) :=
    match existing with
    | none => ([], false)
    | some content => setLines key value (splitCh '\n' content)
  let outLines := if found then lines else lines ++ [newDataLine key value]
  joinNl outLines

example :
    setToFileContent (str "B") (str "x y")
      (some (str "# c\nA=1\nB=2\n\nC=3")) =
    str "# c\nA=1\nB=\"x y\"\n\nC=3" := by decide
example : setToFileContent (str "K") (str "v") none = str "K=v" := by decide
example :
    setToFileContent (str "K") (str "v") (some (str "# only\n")) =
    str "# only\n\nK=v" := by decide

/-! ### Namespace dispatch, write side (`KevOps.setToNamespace`) -/

/-- The externally visible effect of a namespaced write. -/
inductive WriteEffect where
  | nothing : WriteEffect
  | osSet (key value : Str) : WriteEffect
  | fileWrite (path content : Str) : WriteEffect
  deriving DecidableEq, Repr

/-- `KevOps.setToNamespace`: `"os"` writes the live environment,
path-like namespaces rewrite the file, anything else is a no-op. -/
def setToNamespace (env : Env) (ns key value : Str) : WriteEffect :=
  if ns = str "os" then .osSet key value
  else if isPathLike ns then
    .fileWrite ns (setToFileContent key value (env.files ns))
  else .nothing

/-! ### Enumeration (`KevOps.getNamespaceData`, `keysFromNamespace`) -/

/-- JavaScript object property assignment `result[key] = v` on an
association list: overwrite in place, else append. -/
def upsert (m : List (Str × Str)) (k v : Str) : List (Str × Str) :=
  match m with
  | [] => [(k, v)]
  | (k', v') :: rest =>
    if k' = k then (k', v) :: rest else (k', v') :: upsert rest k v

/-- The line scan of `KevOps.parseEnvFile`, accumulating matching
keys (and, unless `keysOnly`, their values) into `acc`. -/
def parseEnvFileLines (pattern : Str) (keysOnly : Bool)
    (acc : List (Str × Str)) : List Str → List (Str × Str)
  | [] => acc
  | line :: rest =>
    let trimmed := trimJS line
    if trimmed = [] || hasPrefixS (str "#") trimmed then
      parseEnvFileLines pattern keysOnly acc rest
    else
      let parts := (splitCh '=' trimmed).take 2
      let key := trimJS (parts.headD [])
      if matchPattern key pattern then
        match parts with
        | [_, v] =>
          parseEnvFileLines pattern keysOnly
            (upsert acc key (if keysOnly then [] else stripQuotes (trimJS v)))
            rest
        | _ =>
          if keysOnly then
            parseEnvFileLines pattern keysOnly (upsert acc key []) rest
          else parseEnvFileLines pattern keysOnly acc rest
      else parseEnvFileLines pattern keysOnly acc rest

/-- `KevOps.parseEnvFile`: absent file contributes nothing. -/
def parseEnvFile (env : Env) (filePath pattern : Str) (keysOnly : Bool) :
    List (Str × Str) :=
  match env.files filePath with
  | none => []
  | some content =>
    parseEnvFileLines pattern keysOnly [] (splitCh '\n' content)

/-- `KevOps.getNamespaceData`: enumerate one backend. -/
def getNamespaceData (env : Env) (ns pattern : Str) (keysOnly : Bool) :
    List (Str × Str) :=
  if ns = str "os" then
    env.osAll.foldl
      (fun acc kv =>
        if matchPattern kv.1 pattern then
          upsert acc kv.1 (if keysOnly then [] else kv.2)
        else acc) []
  else if isPathLike ns then parseEnvFile env ns pattern keysOnly
  else []

/-- `KevOps.keysFromNamespace`. -/
def keysFromNamespace (env : Env) (ns pattern : Str) : List Str :=
  (getNamespaceData env ns pattern true).map (·.1)

/-! ### Bulk clears (`KevOps.clear`, `KevOps.clearUnsafe`) -/

/-- The deletion loop of `KevOps.clear`: for each pattern, delete
every cached key matching it. -/
def clearMem (mem : List (Str × MemEntry)) (patterns : List Str) :
    List (Str × MemEntry) :=
  patterns.foldl
    (fun m pattern => m.filter fun kv => !matchPattern kv.1 pattern) mem

/-- `KevOps.clear`: memory-only deletion; any pattern containing a
namespace separator is rejected (fatally) before anything is
deleted; with no patterns the whole cache is emptied. -/
def clearOp (st : KevState) (patterns : List Str) : Except Str KevState :=
  if patterns.any (includesC ':') then
    .error (str "Clear() with namespace is dangerous! Use clearUnsafe() if you really need this.")
  else if patterns = [] then .ok { st with memory := [] }
  else .ok { st with memory := clearMem st.memory patterns }

/-- The pattern loop of `KevOps.clearUnsafe`, threading the cache and
accumulating the OS keys deleted via `runtime.deleteEnv`. -/
def clearUnsafeGo (env : Env) (mem : List (Str × MemEntry))
    (deleted : List Str) : List Str → Except Str (List (Str × MemEntry) × List Str)
  | [] => .ok (mem, deleted)
  | pattern :: rest =>
    match parseKey pattern with
    | .error e => .error e
    | .ok (ns, keyPattern) =>
      if ns = [] then
        -- no namespace: `this.clear(pattern)` (pattern has no colon here)
        clearUnsafeGo env (clearMem mem [pattern]) deleted rest
      else if ns = str "os" then
        if keyPattern = str "*" then
          .error (str "clearUnsafe(\"os:*\") would destroy system! This is never allowed.")
        else
          clearUnsafeGo env mem
            (deleted ++ keysFromNamespace env (str "os") keyPattern) rest
      else .error (str "Clearing from files not yet implemented")

/-- `KevOps.clearUnsafe`. -/
def clearUnsafeOp (st : KevState) (env : Env) (patterns : List Str) :
    Except Str (List (Str × MemEntry) × List Str) :=
  clearUnsafeGo env st.memory [] patterns

/-! ### Typed getter (`KevOps.bool`) -/

/-- `String.prototype.toLowerCase`, modelled on the Basic Latin
range (the keyword comparisons in `bool` only involve ASCII). -/
def toLowerA (c : Char) : Char :=
  if 'A' ≤ c && c ≤ 'Z' then Char.ofNat (c.toNat + 32) else c

/-- `val.toLowerCase()` on the model strings. -/
def lowerS (s : Str) : Str := s.map toLowerA

/-- `KevOps.bool`: `this.get(key)` (no default) lower-cased, empty
means "use the default", the eight recognized keywords decide the
result, anything else panics. -/
def boolOp (st : KevState) (env : Env) (key : Str) (dflt : Bool) :
    Except Str (Bool × KevState) :=
  match getOp st env key none with
  | .error e => .error e
  | .ok (v, st') =>
    let val := lowerS v
    if val = [] then .ok (dflt, st')
    else if val = str "true" || val = str "1" || val = str "yes" ||
            val = str "on" then .ok (true, st')
    else if val = str "false" || val = str "0" || val = str "no" ||
            val = str "off" then .ok (false, st')
    else .error (str "invalid bool value")

/-! ### Spec-side formulations

Definitions in this section follow the specification's wording (with
the minimal amendments forced by counterexamples), phrased through
first-occurrence splitting (`takeWhile`/`dropWhile`) rather than the
source's `split(sep, limit)` idiom, to be compared with the
source-side definitions above. -/

/-- The text strictly before the first occurrence of `c`. -/
def takeUntil (c : Char) (s : Str) : Str := s.takeWhile (· ≠ c)

/-- The text strictly after the first occurrence of `c` (everything,
not just up to the next occurrence); `[]` when `c` does not occur. -/
def dropThrough (c : Char) (s : Str) : Str := (s.dropWhile (· ≠ c)).drop 1

/-- Spec-side key parser (amended): the key is cut at its first
colon, the bare part is the text between the first and the second
colon (text after a second colon is discarded). -/
def specParseKey (key : Str) : Except Str (Str × Str) :=
  if hasPrefixS (str ":") key then
    .error (str "invalid key format - starts with colon")
  else if includesS (str "::") key then
    .error (str "invalid key format - double colon")
  else if includesC ':' key then
    let p0 := takeUntil ':' key
    let p1 := takeUntil ':' (dropThrough ':' key)
    if p0 = [] || p1 = [] then
      .error (str "invalid key format - empty namespace or key")
    else .ok (p0, p1)
  else .ok ([], key)

/-- Spec-side reading of one file line (amended): `none` for
structural or keyless lines, otherwise the trimmed key and the
trimmed, quote-stripped value, the value being the text between the
first and the second `'='`. -/
def specReadLine (key line : Str) : Option Str :=
  let trimmed := trimJS line
  if trimmed = [] || hasPrefixS (str "#") trimmed then none
  else if includesC '=' trimmed then
    if trimJS (takeUntil '=' trimmed) = key then
      some (stripQuotes (trimJS (takeUntil '=' (dropThrough '=' trimmed))))
    else none
  else none

/-- Spec-side top-to-bottom scan: the first data line defining the
key wins; no match reads as the empty string. -/
def specScan (key : Str) : List Str → Str
  | [] => []
  | line :: rest =>
    match specReadLine key line with
    | some v => v
    | none => specScan key rest

/-- Spec-side file read (amended): absent file reads as empty,
otherwise the newline-split content is scanned. -/
def specGetFromFile (env : Env) (filePath key : Str) : Str :=
  match env.files filePath with
  | none => []
  | some content => specScan key (splitCh '\n' content)

/-- The pattern-matcher case analysis exactly as the claim states it:
the prefix case requires the pattern not to start with `'*'`, the
suffix case requires it not to end with `'*'`, the `pre*post` case
requires exactly one interior `'*'`, and every remaining pattern
matches only by exact equality. -/
def specMatchClaim (key pattern : Str) : Bool :=
  if pattern = str "*" then true
  else if hasSuffixS (str "*") pattern && !hasPrefixS (str "*") pattern then
    hasPrefixS pattern.dropLast key
  else if hasPrefixS (str "*") pattern && !hasSuffixS (str "*") pattern then
    hasSuffixS (pattern.drop 1) key
  else if !hasPrefixS (str "*") pattern && !hasSuffixS (str "*") pattern &&
          pattern.count '*' = 1 then
    hasPrefixS (takeUntil '*' pattern) key &&
    hasSuffixS (dropThrough '*' pattern) key
  else key = pattern

/-- The amended pattern-matcher case analysis: the trailing-`'*'`
prefix case is decided first and also captures patterns that start
with `'*'`; then the leading-`'*'` suffix case; then `pre*post` with
exactly one `'*'`; every remaining pattern matches by equality. -/
def specMatchAmended (key pattern : Str) : Bool :=
  if pattern = str "*" then true
  else if hasSuffixS (str "*") pattern then hasPrefixS pattern.dropLast key
  else if hasPrefixS (str "*") pattern then hasSuffixS (pattern.drop 1) key
  else if pattern.count '*' = 1 then
    hasPrefixS (takeUntil '*' pattern) key &&
    hasSuffixS (dropThrough '*' pattern) key
  else key = pattern

/-- The claim's backend selector for the file backend: any namespace
string containing `'.'` or `'/'`. -/
def specSelectsFileClaim (ns : Str) : Bool :=
  includesC '.' ns || includesC '/' ns

/-- The amended backend selector: the namespace begins with `'.'` or
contains `'/'`. -/
def specPathAmended (ns : Str) : Bool :=
  (ns.head? = some '.') || includesC '/' ns

/-- Spec-side test for `setToFile`: is this a data line whose key
equals the target? -/
def lineMatches (key line : Str) : Bool :=
  let trimmed := trimJS line
  !(trimmed = [] || hasPrefixS (str "#") trimmed) &&
  trimJS (takeUntil '=' trimmed) = key

/-- Spec-side line rewrite for `setToFile`: structural lines and
non-matching data lines pass through unchanged, matching data lines
become the fresh `key=value` line. -/
def replaceLine (key value line : Str) : Str :=
  if lineMatches key line then newDataLine key value else line

/-- Spec-side case-insensitive string comparison. -/
def eqCI (a b : Str) : Bool := lowerS a = lowerS b

/-! ### Concrete worlds and states used to evaluate the model -/

/-- A world with an empty OS environment, one file `.envB` holding
`K=v`, and `path.absolute` modelled as prefixing a slash. -/
def envB : Env where
  osEnv := fun _ => none
  osAll := []
  files := fun p => if p = str ".envB" then some (str "K=v") else none
  absolute := fun s => '/' :: s

/-- The world `envB` after the backing file changed on disk. -/
def envBMut : Env where
  osEnv := fun _ => none
  osAll := []
  files := fun p => if p = str ".envB" then some (str "K=w2") else none
  absolute := fun s => '/' :: s

/-- A world whose file `f` holds the single line `K=a=b`. -/
def envEq : Env where
  osEnv := fun _ => none
  osAll := []
  files := fun p => if p = str "f" then some (str "K=a=b") else none
  absolute := fun s => s

/-- A world whose file `a.b` (a name containing `'.'` that neither
starts with `'.'` nor contains `'/'`) holds `K=v`. -/
def envAB : Env where
  osEnv := fun _ => none
  osAll := []
  files := fun p => if p = str "a.b" then some (str "K=v") else none
  absolute := fun s => s

/-- Fresh store state: empty cache, sources `["os", ".envA", ".envB"]`. -/
def st0 : KevState where
  memory := []
  sources := [str "os", str ".envA", str ".envB"]

/-- `st0` after `get("K")` cached fileB's value with absolute-path
provenance. -/
def st1 : KevState where
  memory := [(str "K", { value := str "v", source := str "/.envB" })]
  sources := [str "os", str ".envA", str ".envB"]

/-- `st0` after `get("M", "")` cached the empty default. -/
def stM : KevState where
  memory := [(str "M", { value := [], source := str "default" })]
  sources := [str "os", str ".envA", str ".envB"]

/-- A state whose cache holds `DEBUG = "On"` from an explicit set. -/
def stDbg : KevState where
  memory := [(str "DEBUG", { value := str "On", source := str "set" })]
  sources := []

/-- A file, as lines, in which the key `K` occurs twice. -/
def lsC9 : List Str := [str "K=1", str "# c", str "K=2"]

/-! ### Helper lemmas -/

theorem splitCh_ne_nil (c : Char) (l : Str) : splitCh c l ≠ [] := by
  induction l with
  | nil => simp [splitCh]
  | cons x xs ih =>
    simp only [splitCh]
    cases h : splitCh c xs with
    | nil => simp
    | cons h1 t1 =>
      by_cases hx : x = c <;> simp [hx]

theorem takeUntil_of_not_includes {c : Char} {l : Str}
    (h : includesC c l = false) : takeUntil c l = l := by
  induction l with
  | nil => rfl
  | cons x xs ih =>
    simp only [includesC, List.any_cons, Bool.or_eq_false_iff,
      decide_eq_false_iff_not] at h
    simp only [takeUntil, List.takeWhile_cons, h.1, decide_not,
      decide_eq_false_iff_not]
    simpa [takeUntil, h.1, includesC] using ih (by simp [includesC, h.2])

theorem splitCh_not_includes {c : Char} {l : Str}
    (h : includesC c l = false) : splitCh c l = [l] := by
  induction l with
  | nil => rfl
  | cons x xs ih =>
    simp only [includesC, List.any_cons, Bool.or_eq_false_iff,
      decide_eq_false_iff_not] at h
    have hxs : splitCh c xs = [xs] := ih (by simp [includesC, h.2])
    simp [splitCh, hxs, h.1]

theorem splitCh_includes {c : Char} {l : Str}
    (h : includesC c l = true) :
    splitCh c l = takeUntil c l :: splitCh c (dropThrough c l) := by
  induction l with
  | nil => simp [includesC] at h
  | cons x xs ih =>
    obtain ⟨h1, t1, heq⟩ := List.exists_cons_of_ne_nil (splitCh_ne_nil c xs)
    by_cases hx : x = c
    · have ht : takeUntil c (x :: xs) = [] := by simp [takeUntil, hx]
      have hd : dropThrough c (x :: xs) = xs := by simp [dropThrough, hx]
      rw [ht, hd]
      simp only [splitCh, heq, hx, if_true]
    · have hxs : includesC c xs = true := by
        simp only [includesC, List.any_cons, Bool.or_eq_true,
          decide_eq_true_eq] at h
        rcases h with h | h
        · exact absurd h hx
        · simpa [includesC] using h
      have ht : takeUntil c (x :: xs) = x :: takeUntil c xs := by
        simp [takeUntil, hx]
      have hd : dropThrough c (x :: xs) = dropThrough c xs := by
        simp [dropThrough, hx]
      rw [ht, hd]
      simp only [splitCh, ih hxs, hx, if_false]

theorem splitCh_headD (c : Char) (l : Str) :
    (splitCh c l).headD [] = takeUntil c l := by
  by_cases h : includesC c l
  · rw [splitCh_includes h]
    rfl
  · have h' : includesC c l = false := by simpa using h
    rw [splitCh_not_includes h']
    simp [takeUntil_of_not_includes h']

theorem headD_take_two {α : Type} (l : List α) (d : α) :
    (l.take 2).headD d = l.headD d := by
  cases l <;> rfl

theorem memGet_memSet (m : List (Str × MemEntry)) (k : Str) (e : MemEntry) :
    memGet (memSet m k e) k = some e := by
  induction m with
  | nil => simp [memGet, memSet]
  | cons kv rest ih =>
    obtain ⟨k', e'⟩ := kv
    by_cases h : k' = k <;> simp [memGet, memSet, h, ih]

theorem searchSources_append (env : Env) (key : Str) (pre rest : List Str)
    (h : ∀ t ∈ pre, getFromNamespace env t key = []) :
    searchSources env key (pre ++ rest) = searchSources env key rest := by
  induction pre with
  | nil => rfl
  | cons s ss ih =>
    have hs := h s (by simp)
    simp only [List.cons_append, searchSources, hs]
    simpa using ih fun t ht => h t (by simp [ht])

theorem searchSources_eq_none {env : Env} {key : Str} {srcs : List Str}
    (h : ∀ t ∈ srcs, getFromNamespace env t key = []) :
    searchSources env key srcs = none := by
  have := searchSources_append env key srcs [] h
  simpa [searchSources] using this

theorem includesC_true_iff {c : Char} {l : Str} :
    includesC c l = true ↔ c ∈ l := by
  simp only [includesC, List.any_eq_true, decide_eq_true_eq]
  constructor
  · rintro ⟨x, hx, rfl⟩; exact hx
  · intro h; exact ⟨c, h, rfl⟩

theorem splitCh_length (c : Char) (l : Str) :
    (splitCh c l).length = l.count c + 1 := by
  induction l with
  | nil => simp [splitCh]
  | cons x xs ih =>
    obtain ⟨h1, t1, heq⟩ := List.exists_cons_of_ne_nil (splitCh_ne_nil c xs)
    by_cases hx : x = c
    · simp only [splitCh, heq, hx, if_true]
      rw [heq] at ih
      simp only [List.length_cons] at ih ⊢
      simp [List.count_cons, hx, ih]
    · simp only [splitCh, heq, hx, if_false]
      rw [heq] at ih
      simp only [List.length_cons] at ih ⊢
      simp [List.count_cons, hx, ih]

theorem count_takeUntil (c : Char) (l : Str) :
    (takeUntil c l).count c = 0 := by
  rw [List.count_eq_zero]
  intro h
  have := List.mem_takeWhile_imp h
  simp at this

theorem dropWhile_eq_cons_of_includes {c : Char} {l : Str}
    (h : includesC c l = true) :
    l.dropWhile (· ≠ c) = c :: dropThrough c l := by
  induction l with
  | nil => simp [includesC] at h
  | cons x xs ih =>
    by_cases hx : x = c
    · simp [List.dropWhile_cons, hx, dropThrough]
    · have hxs : includesC c xs = true := by
        simp only [includesC, List.any_cons, Bool.or_eq_true,
          decide_eq_true_eq] at h
        rcases h with h | h
        · exact absurd h hx
        · simpa [includesC] using h
      simp only [dropThrough, List.dropWhile_cons, hx]
      simpa [dropThrough, hx] using ih hxs

theorem count_eq_of_includes {c : Char} {l : Str}
    (h : includesC c l = true) :
    l.count c = (dropThrough c l).count c + 1 := by
  conv_lhs => rw [← List.takeWhile_append_dropWhile (· ≠ c) l]
  rw [List.count_append, dropWhile_eq_cons_of_includes h]
  have := count_takeUntil c l
  simp only [takeUntil, decide_not] at this ⊢
  simp [this, List.count_cons]

theorem splitCh_of_count_one {c : Char} {l : Str} (h : l.count c = 1) :
    splitCh c l = [takeUntil c l, dropThrough c l] := by
  have hinc : includesC c l = true := by
    rw [includesC_true_iff]
    exact List.count_pos_iff.mp (by omega)
  rw [splitCh_includes hinc]
  have hc := count_eq_of_includes hinc
  rw [h] at hc
  have h0 : (dropThrough c l).count c = 0 := by omega
  have : includesC c (dropThrough c l) = false := by
    by_contra hcon
    have : includesC c (dropThrough c l) = true := by simpa using hcon
    rw [includesC_true_iff] at this
    exact absurd h0 (List.count_pos_iff.mpr this).ne'
  rw [splitCh_not_includes this]

theorem hasPrefixS_single (c : Char) (s : Str) :
    hasPrefixS [c] s = decide (s.head? = some c) := by
  cases s with
  | nil => simp [hasPrefixS, List.isPrefixOf]
  | cons x xs =>
    simp only [hasPrefixS, List.isPrefixOf, List.head?_cons,
      Option.some.injEq]
    by_cases h : c = x
    · simp [h]
    · simp [h, Ne.symm h]

theorem procLine_eq (key value line : Str) :
    procLine key value line =
      (replaceLine key value line, lineMatches key line) := by
  simp only [procLine, replaceLine, lineMatches, headD_take_two,
    splitCh_headD]
  by_cases hA : (trimJS line = [] || hasPrefixS (str "#") (trimJS line)) = true
  · simp [hA]
  · by_cases hB : trimJS (takeUntil '=' (trimJS line)) = key
    · simp [hA, hB]
    · simp [hA, hB]

theorem setLines_eq (key value : Str) (ls : List Str) :
    setLines key value ls =
      (ls.map (replaceLine key value), ls.any (lineMatches key)) := by
  induction ls with
  | nil => rfl
  | cons line rest ih =>
    simp [setLines, procLine_eq, ih, List.any_cons]

theorem getFromFileLines_eq (key : Str) (ls : List Str) :
    getFromFileLines key ls = specScan key ls := by
  induction ls with
  | nil => rfl
  | cons line rest ih =>
    simp only [getFromFileLines, specScan, specReadLine]
    by_cases hA : (trimJS line = [] || hasPrefixS (str "#") (trimJS line)) = true
    · simp [hA, ih]
    · by_cases hE : includesC '=' (trimJS line) = true
      · have hsp := splitCh_includes hE
        obtain ⟨h2, t2, heq2⟩ :=
          List.exists_cons_of_ne_nil
            (splitCh_ne_nil '=' (dropThrough '=' (trimJS line)))
        have h2eq : h2 = takeUntil '=' (dropThrough '=' (trimJS line)) := by
          have hh := splitCh_headD '=' (dropThrough '=' (trimJS line))
          rw [heq2] at hh
          simpa using hh
        rw [heq2] at hsp
        by_cases hK : trimJS (takeUntil '=' (trimJS line)) = key
        · simp [hA, hE, hK, hsp, h2eq]
        · simp [hA, hE, hK, hsp, ih]
      · have hE' : includesC '=' (trimJS line) = false := by simpa using hE
        rw [splitCh_not_includes hE']
        simp [hA, hE, ih]

theorem parseKey_eq_spec (key : Str) : parseKey key = specParseKey key := by
  simp only [parseKey, specParseKey]
  by_cases h1 : hasPrefixS (str ":") key = true
  · simp [h1]
  · by_cases h2 : includesS (str "::") key = true
    · simp [h1, h2]
    · by_cases h3 : includesC ':' key = true
      · have hsp := splitCh_includes h3
        obtain ⟨hh, tt, heq2⟩ :=
          List.exists_cons_of_ne_nil
            (splitCh_ne_nil ':' (dropThrough ':' key))
        have hheq : hh = takeUntil ':' (dropThrough ':' key) := by
          have hhd := splitCh_headD ':' (dropThrough ':' key)
          rw [heq2] at hhd
          simpa using hhd
        rw [heq2] at hsp
        simp [h1, h2, h3, hsp, hheq]
      · have h3' : includesC ':' key = false := by simpa using h3
        rw [splitCh_not_includes h3']
        simp [h1, h2, h3]

theorem isPathLike_eq_spec (ns : Str) : isPathLike ns = specPathAmended ns := by
  have hdot : str "." = ['.'] := rfl
  simp only [isPathLike, specPathAmended, hdot]
  rw [hasPrefixS_single]

theorem matchPattern_eq_specAmended (key pattern : Str) :
    matchPattern key pattern = specMatchAmended key pattern := by
  simp only [matchPattern, specMatchAmended]
  by_cases h1 : pattern = str "*"
  · simp [h1]
  · by_cases h2 : hasSuffixS (str "*") pattern = true
    · simp [h1, h2]
    · by_cases h3 : hasPrefixS (str "*") pattern = true
      · simp [h1, h2, h3]
      · by_cases h4 : pattern.count '*' = 1
        · have hsp := splitCh_of_count_one h4
          have hinc : includesC '*' pattern = true :=
            includesC_true_iff.mpr (List.count_pos_iff.mp (by omega))
          simp [h1, h2, h3, h4, hinc, hsp]
        · by_cases h5 : includesC '*' pattern = true
          · have hlen : (splitCh '*' pattern).length = pattern.count '*' + 1 :=
              splitCh_length '*' pattern
            have hc : pattern.count '*' ≠ 0 := by
              have := List.count_pos_iff.mpr (includesC_true_iff.mp h5)
              omega
            match hL : splitCh '*' pattern with
            | [] => exact absurd hL (splitCh_ne_nil '*' pattern)
            | [a] =>
              rw [hL] at hlen
              simp only [List.length_cons, List.length_nil] at hlen
              omega
            | [a, b] =>
              rw [hL] at hlen
              simp only [List.length_cons, List.length_nil] at hlen
              omega
            | a :: b :: c :: t =>
              simp [h1, h2, h3, h4, h5, hL]
          · simp [h1, h2, h3, h4, h5]

/-! ### Claim C2 (key parser) -/

/-- C2, counterexample to the claim as stated: `"a:b:c"` contains a
colon, passes all fatal checks, yet `parseKey` does not return the
text after the first colon (`"b:c"`); the JavaScript `split(':', 2)`
limit truncates, so it returns `("a", "b")`. -/
theorem kev_C2_cex :
    parseKey (str "a:b:c") = .ok (str "a", str "b") ∧
    parseKey (str "a:b:c") ≠ .ok (str "a", str "b:c") := by
  decide

/-- C2 (amended): `parseKey` fails fatally on a key starting with a
colon, containing `"::"`, or (when a colon is present) having an
empty namespace or empty bare segment; for a key containing a colon
it returns the text before the first colon paired with the text
between the first and the second colon (text after a second colon is
discarded); a colon-free key parses as `("", key)`.  Stated as
agreement with the spec-side parser `specParseKey`. -/
theorem kev_C2 (key : Str) : parseKey key = specParseKey key :=
  parseKey_eq_spec key

/-! ### Claim C3 (file backend, read) -/

/-- C3, counterexample to the claim as stated: on a file whose data
line is `K=a=b`, reading `K` does not return everything after the
first `'='` (`"a=b"`); `split('=', 2)` truncates at the second
`'='`, so it returns `"a"`. -/
theorem kev_C3_cex :
    getFromFile envEq (str "f") (str "K") = str "a" ∧
    getFromFile envEq (str "f") (str "K") ≠ str "a=b" := by
  decide

/-- C3 (amended): absent file reads as the empty string; otherwise
lines are scanned top-to-bottom, blank lines and lines whose trimmed
form starts with `'#'` are structural, keyless lines are skipped, and
the first data line whose trimmed key matches exactly yields its
value — the text between the first and the second `'='` (text after
a second `'='` is discarded), trimmed and stripped of one pair of
surrounding matching quotes; no match reads as the empty string.
Stated as agreement with the spec-side reader `specGetFromFile`. -/
theorem kev_C3 (env : Env) (filePath key : Str) :
    getFromFile env filePath key = specGetFromFile env filePath key := by
  simp only [getFromFile, specGetFromFile]
  cases env.files filePath with
  | none => rfl
  | some content => exact getFromFileLines_eq key (splitCh '\n' content)

/-! ### Claim C4 (pattern matcher) -/

/-- C4, counterexample to the claim as stated: the pattern `"*A*"`
both starts and ends with `'*'`, so the claim's case analysis sends
it to exact equality, yet `matchPattern` takes the trailing-`'*'`
branch first and prefix-matches the key `"*AX"` against `"*A"`. -/
theorem kev_C4_cex :
    matchPattern (str "*AX") (str "*A*") = true ∧
    specMatchClaim (str "*AX") (str "*A*") = false ∧
    (str "*AX" : Str) ≠ str "*A*" := by
  decide

/-- C4 (amended): `"*"` matches everything; otherwise a pattern
ending in `'*'` is a prefix match (this case is decided first and
also captures patterns that additionally start with `'*'`); otherwise
a pattern starting with `'*'` is a suffix match; otherwise a pattern
with exactly one `'*'` matches iff the key starts with the part
before it and ends with the part after it; every other pattern
matches only by exact equality.  Stated as agreement with the
spec-side matcher `specMatchAmended`. -/
theorem kev_C4 (key pattern : Str) :
    matchPattern key pattern = specMatchAmended key pattern :=
  matchPattern_eq_specAmended key pattern

/-! ### Claim C5 (file backend, write-side frame property) -/

/-- C5: `setToFile` on an existing file reproduces every line in
order: structural (blank/comment) lines and non-matching data lines
pass through unchanged, each data line whose key equals the target
becomes the fresh `key=value` line (the value quoted when it
contains whitespace, via `quoteVal` inside `newDataLine`), and
exactly one new line is appended at the end iff no line matched;
on an absent file the written content is the single new line. -/
theorem kev_C5 (key value content : Str) :
    setToFileContent key value (some content) =
      joinNl ((splitCh '\n' content).map (replaceLine key value) ++
        (if (splitCh '\n' content).any (lineMatches key) then []
         else [newDataLine key value])) ∧
    setToFileContent key value none = newDataLine key value := by
  constructor
  · simp only [setToFileContent, setLines_eq]
    by_cases h : (splitCh '\n' content).any (lineMatches key) = true
    · simp [h]
    · simp [h]
  · simp [setToFileContent, setLines, joinNl]

/-! ### Claim C9 (setToFile replaces every matching line) -/

/-- C9: in the rewrite loop of `setToFile`, every line whose key
equals the target — not just the first — is replaced in place by the
new `key=value` line. -/
theorem kev_C9 (key value : Str) (ls : List Str) (i : ℕ)
    (h : i < ls.length)
    (hm : lineMatches key (ls.get ⟨i, h⟩) = true) :
    ((setLines key value ls).1)[i]? = some (newDataLine key value) := by
  have hm' : lineMatches key ls[i] = true := hm
  rw [setLines_eq]
  simp [List.getElem?_map, List.getElem?_eq_getElem h, replaceLine, hm']

/-- C9, witness: on the file `K=1` / `# c` / `K=2`, the second
occurrence of `K` (index 2) is also replaced. -/
theorem kev_C9_wit :
    ((setLines (str "K") (str "v") lsC9).1)[2]? =
      some (newDataLine (str "K") (str "v")) :=
  kev_C9 (str "K") (str "v") lsC9 2 (by decide) (by decide)

/-! ### Claim C6 (namespace backend selection) -/

/-- C6, counterexample to the claim as stated: the namespace `"a.b"`
contains `'.'`, so the claim selects the file backend for it (and
the file `a.b` in `envAB` does define `K`), yet every operation
through the namespace `"a.b"` is inert: the code's selector requires
the string to start with `'.'` or contain `'/'`. -/
theorem kev_C6_cex :
    specSelectsFileClaim (str "a.b") = true ∧
    getFromFile envAB (str "a.b") (str "K") = str "v" ∧
    getFromNamespace envAB (str "a.b") (str "K") = [] ∧
    hasInNamespace envAB (str "a.b") (str "K") = false ∧
    setToNamespace envAB (str "a.b") (str "K") (str "w") = .nothing := by
  decide

/-- C6 (amended): for reads (`get`/`has`/`keys`) and writes (`set`),
a namespace selects the OS backend iff it is the literal `"os"`, and
selects the file backend iff it starts with `'.'` or contains `'/'`
(`specPathAmended`); any other namespace string is inert — reads
resolve to empty/false/no data and writes are no-ops. -/
theorem kev_C6 (env : Env) (ns key value pattern : Str) (keysOnly : Bool) :
    getFromNamespace env ns key =
      (if ns = str "os" then osRead env key
       else if specPathAmended ns then getFromFile env ns key
       else []) ∧
    hasInNamespace env ns key =
      (if ns = str "os" then (env.osEnv key).isSome
       else if specPathAmended ns then getFromFile env ns key ≠ []
       else false) ∧
    setToNamespace env ns key value =
      (if ns = str "os" then .osSet key value
       else if specPathAmended ns then
         .fileWrite ns (setToFileContent key value (env.files ns))
       else .nothing) ∧
    getNamespaceData env ns pattern keysOnly =
      (if ns = str "os" then
        env.osAll.foldl
          (fun acc kv =>
            if matchPattern kv.1 pattern then
              upsert acc kv.1 (if keysOnly then [] else kv.2)
            else acc) []
       else if specPathAmended ns then parseEnvFile env ns pattern keysOnly
       else []) := by
  simp only [getFromNamespace, hasInNamespace, setToNamespace,
    getNamespaceData, isPathLike_eq_spec]
  exact ⟨trivial, trivial, trivial, trivial⟩

/-! ### Claim C7 (bulk-clear safety rails) -/

/-- C7: `clear` with any pattern containing `':'` fails fatally
before deleting anything; `clearUnsafe("os:*")` always fails fatally
regardless of state; `clearUnsafe` with a path-like namespace
pattern always fails fatally as unimplemented. -/
theorem kev_C7 :
    (∀ (st : KevState) (patterns : List Str) (p : Str),
      p ∈ patterns → includesC ':' p = true →
      clearOp st patterns =
        .error (str "Clear() with namespace is dangerous! Use clearUnsafe() if you really need this.")) ∧
    (∀ (st : KevState) (env : Env),
      clearUnsafeOp st env [str "os:*"] =
        .error (str "clearUnsafe(\"os:*\") would destroy system! This is never allowed.")) ∧
    (∀ (st : KevState) (env : Env) (pattern ns keyPattern : Str),
      parseKey pattern = .ok (ns, keyPattern) → isPathLike ns = true →
      clearUnsafeOp st env [pattern] =
        .error (str "Clearing from files not yet implemented")) := by
  refine ⟨?_, ?_, ?_⟩
  · intro st patterns p hp hc
    have hany : patterns.any (includesC ':') = true :=
      List.any_eq_true.mpr ⟨p, hp, hc⟩
    simp [clearOp, hany]
  · intro st env
    rfl
  · intro st env pattern ns keyPattern hpk hpl
    have hns1 : ns ≠ [] := by
      intro h
      rw [h] at hpl
      exact absurd hpl (by decide)
    have hns2 : ns ≠ str "os" := by
      intro h
      rw [h] at hpl
      exact absurd hpl (by decide)
    simp only [clearUnsafeOp, clearUnsafeGo, hpk]
    simp [hns1, hns2]

/-- C7, witness: concrete fatal rejections of `clear("NS:KEY")`,
`clearUnsafe("os:*")` and `clearUnsafe(".env:*")`. -/
theorem kev_C7_wit :
    clearOp st0 [str "NS:KEY"] =
      .error (str "Clear() with namespace is dangerous! Use clearUnsafe() if you really need this.") ∧
    clearUnsafeOp st0 envB [str "os:*"] =
      .error (str "clearUnsafe(\"os:*\") would destroy system! This is never allowed.") ∧
    clearUnsafeOp st0 envB [str ".env:*"] =
      .error (str "Clearing from files not yet implemented") :=
  ⟨kev_C7.1 st0 [str "NS:KEY"] (str "NS:KEY") (by decide) (by decide),
   kev_C7.2.1 st0 envB,
   kev_C7.2.2 st0 envB (str ".env:*") (str ".env") (str "*")
     (by decide) (by decide)⟩

/-! ### Claim C8 (boolean getter) -/

/-- C8: when `get(key)` resolves to the empty string, `bool` returns
the default; otherwise the value is compared case-insensitively and
`true`/`1`/`yes`/`on` yield `true`, `false`/`0`/`no`/`off` yield
`false`, and every other non-empty value fails fatally. -/
theorem kev_C8 (st : KevState) (env : Env) (key : Str) (dflt : Bool)
    (v : Str) (st' : KevState)
    (hget : getOp st env key none = .ok (v, st')) :
    boolOp st env key dflt =
      (if v = [] then .ok (dflt, st')
       else if eqCI v (str "true") || eqCI v (str "1") ||
               eqCI v (str "yes") || eqCI v (str "on") then
         .ok (true, st')
       else if eqCI v (str "false") || eqCI v (str "0") ||
               eqCI v (str "no") || eqCI v (str "off") then
         .ok (false, st')
       else .error (str "invalid bool value")) := by
  simp only [boolOp, hget]
  by_cases hv : v = []
  · subst hv
    simp [lowerS]
  · have hlv : ¬(lowerS v = []) := by
      simpa [lowerS] using hv
    simp only [if_neg hv, if_neg hlv, eqCI,
      show lowerS (str "true") = str "true" from rfl,
      show lowerS (str "1") = str "1" from rfl,
      show lowerS (str "yes") = str "yes" from rfl,
      show lowerS (str "on") = str "on" from rfl,
      show lowerS (str "false") = str "false" from rfl,
      show lowerS (str "0") = str "0" from rfl,
      show lowerS (str "no") = str "no" from rfl,
      show lowerS (str "off") = str "off" from rfl]

/-- C8, witness: with `DEBUG = "On"` cached, `bool("DEBUG", false)`
returns `true`. -/
theorem kev_C8_wit :
    boolOp stDbg envB (str "DEBUG") false = .ok (true, stDbg) := by
  rw [kev_C8 stDbg envB (str "DEBUG") false (str "On") stDbg (by decide)]
  decide

/-! ### Claim C1 (resolver: first hit, provenance, sticky cache) -/

/-- C1: for a bare key absent from the cache, `get` walks the source
list in order; the first source returning a non-empty value
determines the result, which is cached with provenance equal to the
source identifier, converted through `path.absolute` when the source
is none of the sentinels `"os"`/`"default"`/`"set"`; afterwards
`sourceOf` reports that provenance, and every later `get` of the key
returns the cached value against any world (in particular after the
backing file changed on disk). -/
theorem kev_C1 (st : KevState) (env : Env) (key : Str)
    (dflt : Option Str) (pre post : List Str) (s v prov : Str)
    (st' : KevState)
    (hbare : parseKey key = .ok ([], key))
    (hmem : memGet st.memory key = none)
    (hsrc : st.sources = pre ++ s :: post)
    (hpre : ∀ t ∈ pre, getFromNamespace env t key = [])
    (hs : getFromNamespace env s key = v)
    (hv : v ≠ [])
    (hprov : prov =
      if s ≠ str "os" ∧ s ≠ str "default" ∧ s ≠ str "set"
      then env.absolute s else s)
    (hst' : st' =
      { st with memory :=
          memSet st.memory key { value := v, source := prov } }) :
    getOp st env key dflt = .ok (v, st') ∧
    sourceOf st' key = prov ∧
    ∀ (env₂ : Env) (dflt₂ : Option Str),
      getOp st' env₂ key dflt₂ = .ok (v, st') := by
  have hsearch : searchSources env key st.sources = some (s, v) := by
    rw [hsrc, searchSources_append env key pre (s :: post) hpre]
    simp [searchSources, hs, hv]
  refine ⟨?_, ?_, ?_⟩
  · simp only [getOp, hbare]
    simp [hmem, hsearch, hprov, hst']
  · simp [sourceOf, hst', memGet_memSet]
  · intro env₂ dflt₂
    simp only [getOp, hbare]
    simp [hst', memGet_memSet]

/-- C1, witness: with sources `["os", ".envA", ".envB"]` and `K`
present only in `.envB`, `get("K")` returns `v`, `sourceOf("K")` is
the absolute path `/.envB`, and after the file changes on disk
(`envBMut`) the cached value is still returned. -/
theorem kev_C1_wit :
    getOp st0 envB (str "K") none = .ok (str "v", st1) ∧
    sourceOf st1 (str "K") = str "/.envB" ∧
    getOp st1 envBMut (str "K") none = .ok (str "v", st1) := by
  have h := kev_C1 st0 envB (str "K") none [str "os", str ".envA"] []
    (str ".envB") (str "v") (str "/.envB") st1
    (by decide) (by decide) (by decide) (by decide) (by decide)
    (by decide) (by decide) (by decide)
  exact ⟨h.1, h.2.1, h.2.2 envBMut none⟩

/-! ### Claim C10 (caching an explicit empty default) -/

/-- C10: `get(k, "")` on an uncached bare key that no source
resolves caches `{value: "", source: "default"}` and returns `""`;
afterwards `has(k)` is true, `sourceOf(k)` is `"default"`, and
`get(k)` keeps returning the empty string from the cache. -/
theorem kev_C10 (st : KevState) (env : Env) (key : Str)
    (st' : KevState)
    (hbare : parseKey key = .ok ([], key))
    (hmem : memGet st.memory key = none)
    (hnores : ∀ t ∈ st.sources, getFromNamespace env t key = [])
    (hst' : st' =
      { st with memory :=
          memSet st.memory key { value := [], source := str "default" } }) :
    getOp st env key (some []) = .ok ([], st') ∧
    hasOp st' env key = .ok true ∧
    sourceOf st' key = str "default" ∧
    getOp st' env key none = .ok ([], st') := by
  have hsearch := searchSources_eq_none hnores
  refine ⟨?_, ?_, ?_, ?_⟩
  · simp only [getOp, hbare]
    simp [hmem, hsearch, hst']
  · simp only [hasOp, hbare]
    simp [hst', memGet_memSet]
  · simp [sourceOf, hst', memGet_memSet]
  · simp only [getOp, hbare]
    simp [hst', memGet_memSet]

/-- C10, witness: in `st0`/`envB` no source resolves `M`, so
`get("M", "")` caches the empty default; then `has("M")` is true,
`sourceOf("M")` is `"default"`, and `get("M")` returns `""`. -/
theorem kev_C10_wit :
    getOp st0 envB (str "M") (some []) = .ok ([], stM) ∧
    hasOp stM envB (str "M") = .ok true ∧
    sourceOf stM (str "M") = str "default" ∧
    getOp stM envB (str "M") none = .ok ([], stM) :=
  kev_C10 st0 envB (str "M") stM (by decide) (by decide) (by decide)
    (by decide)

end Kev
